import Mathlib

/-!
Verification of `kube-runtime/src/utils.rs`: the stream-splitting
demultiplexer (`SplitCase`, `trystream_split_result`,
`trystream_try_via`) and the event-flattening helpers
(`try_flatten_applied`, `try_flatten_touched`).

The embedding models an asynchronous stream by the list of items it will
yield, threaded explicitly through each poll.  A `SplitCase` keeps only
its predicate and extractor; the shared peekable cursor becomes the list
argument of `poll_next`, and the `Rc<PinCell<...>>` sharing becomes the
fact that all branches of a group are polled against the same threaded
list.  Panics (`expect` on a predicate/extractor mismatch, and a
reentrant `PinCell::borrow_mut`) are modelled by a distinguished
`fatal` outcome, disjoint from ordinary `Ready`/`Pending` results.
-/

namespace KubeRuntime

/-- Rust's `Result<A, E>`: the item type of the fallible streams split by
`trystream_split_result`. -/
inductive Result (A E : Type) where
  | Ok : A → Result A E
  | Err : E → Result A E
deriving DecidableEq, Repr

/-- Rust's `Result::is_ok`. -/
def Result.is_ok {A E : Type} : Result A E → Bool
  | .Ok _ => true
  | .Err _ => false

/-- Rust's `Result::is_err`. -/
def Result.is_err {A E : Type} : Result A E → Bool
  | .Ok _ => false
  | .Err _ => true

/-- Rust's `Result::ok`, narrowing to the success value. -/
def Result.ok {A E : Type} : Result A E → Option A
  | .Ok a => some a
  | .Err _ => none

/-- Rust's `Result::err`, narrowing to the error value. -/
def Result.err {A E : Type} : Result A E → Option E
  | .Ok _ => none
  | .Err e => some e

/-- `std::task::Poll<Option<Case>>`, the value a well-behaved
`poll_next` returns: `Ready none` is end-of-stream, `Ready (some c)` an
item, `Pending` a suspension. -/
inductive Poll (Case : Type) where
  | Ready : Option Case → Poll Case
  | Pending : Poll Case
deriving DecidableEq, Repr

/-- Outcome of one call to `poll_next`: either an ordinary poll value, or
a fatal abort (a Rust panic carrying its message), which is not a
recoverable data-flow value. -/
inductive PollOutcome (Case : Type) where
  | ok : Poll Case → PollOutcome Case
  | fatal : String → PollOutcome Case
deriving DecidableEq, Repr

/-- Does this outcome abort the process? -/
def PollOutcome.isFatal {Case : Type} : PollOutcome Case → Bool
  | .ok _ => false
  | .fatal _ => true

/-- `SplitCase<S, Case>` without the shared `inner` cursor (the cursor is
threaded explicitly as the list argument of `poll_next`): the predicate
deciding whether this branch consumes an item, and the extractor
narrowing a consumed item to the branch's output type. -/
structure SplitCase (Item Case : Type) where
  should_consume_item : Item → Bool
  try_extract_item_case : Item → Option Case

/-- `SplitCase::poll_next` on the shared cursor modelled as the list of
remaining items.  Mirrors the source: peek the head; if the stream is
exhausted report `Ready none`; if the predicate claims the head, consume
it and apply the extractor, aborting (the `expect` panic) when the
extractor yields `none`; otherwise leave the item for another branch and
return `Pending`.  The source's second panic arm (peek ready but
`poll_next` not) cannot arise here because the list model makes peek and
consume coherent by construction. -/
def SplitCase.poll_next {Item Case : Type} (c : SplitCase Item Case)
    (source : List Item) : PollOutcome Case × List Item :=
  match source with
  | [] => (.ok (.Ready none), [])
  | x :: rest =>
    if c.should_consume_item x then
      match c.try_extract_item_case x with
      | some v => (.ok (.Ready (some v)), rest)
      | none =>
          (.fatal "`try_extract_item_case` returned `None` despite `should_consume_item` returning `true`",
           rest)
    else
      (.ok .Pending, x :: rest)

/-- `SplitCase::poll_next` with the `PinCell` exclusive-access guard made
explicit.  Takes the borrow flag on entry; returns, besides the outcome
and the advanced cursor, the number of successful guard acquisitions the
call performed and whether the guard is still held when the call
returns.  `PinCell::borrow_mut` on an already borrowed cell panics, so a
call entered with the guard held is fatal at once, acquires nothing and
touches nothing; otherwise the guard is acquired exactly once up front
and dropped at the end of the scope on every return path. -/
def SplitCase.poll_next_traced {Item Case : Type} (c : SplitCase Item Case)
    (borrowed : Bool) (source : List Item) :
    PollOutcome Case × Nat × Bool × List Item :=
  if borrowed then
    (.fatal "PinCell is already mutably borrowed", 0, true, source)
  else
    match source with
    | [] => (.ok (.Ready none), 1, false, [])
    | x :: rest =>
      if c.should_consume_item x then
        match c.try_extract_item_case x with
        | some v => (.ok (.Ready (some v)), 1, false, rest)
        | none =>
            (.fatal "`try_extract_item_case` returned `None` despite `should_consume_item` returning `true`",
             1, false, rest)
      else
        (.ok .Pending, 1, false, x :: rest)

/-- `trystream_split_result`: the two `SplitCase` branches over one
`Result`-valued stream, with the success branch keyed by `Result::is_ok`
and extracting with `Result::ok`, and the error branch keyed by
`Result::is_err` and extracting with `Result::err`. -/
def trystream_split_result (A E : Type) :
    SplitCase (Result A E) A × SplitCase (Result A E) E :=
  ({ should_consume_item := Result.is_ok
     try_extract_item_case := Result.ok },
   { should_consume_item := Result.is_err
     try_extract_item_case := Result.err })

/-- One scheduler step of a branch: poll it against the shared cursor and
report the produced item, if any, together with the advanced cursor. -/
def stepCase {Item Case : Type} (c : SplitCase Item Case)
    (source : List Item) : Option Case × List Item :=
  match c.poll_next source with
  | (.ok (.Ready (some v)), rest) => (some v, rest)
  | (_, rest) => (none, rest)

/-- Run a two-branch group under an explicit poll schedule (`true` polls
the first branch, `false` the second), collecting each branch's output in
order and returning the remaining, unconsumed cursor.  This is the
cooperative single-threaded scheduling of the two `SplitCase` streams
sharing one `Rc<PinCell<Peekable<S>>>` cursor. -/
def runSplit {Item C1 C2 : Type} (c1 : SplitCase Item C1)
    (c2 : SplitCase Item C2) :
    List Bool → List Item → List C1 × List C2 × List Item
  | [], s => ([], [], s)
  | true :: rest, s =>
    match stepCase c1 s with
    | (some v, s') =>
      let r := runSplit c1 c2 rest s'
      (v :: r.1, r.2.1, r.2.2)
    | (none, s') => runSplit c1 c2 rest s'
  | false :: rest, s =>
    match stepCase c2 s with
    | (some v, s') =>
      let r := runSplit c1 c2 rest s'
      (r.1, v :: r.2.1, r.2.2)
    | (none, s') => runSplit c1 c2 rest s'

/-- Run an arbitrary branch group under an explicit poll schedule (each
entry names the branch to poll; out-of-range entries poll nothing),
collecting the produced items tagged with the producing branch's index,
and the remaining cursor. -/
def runGroup {Item Case : Type} (branches : List (SplitCase Item Case)) :
    List Nat → List Item → List (Nat × Case) × List Item
  | [], s => ([], s)
  | i :: rest, s =>
    match branches[i]? with
    | none => runGroup branches rest s
    | some c =>
      match stepCase c s with
      | (some v, s') =>
        let r := runGroup branches rest s'
        ((i, v) :: r.1, r.2)
      | (none, s') => runGroup branches rest s'

/-- An interleaving of two already-produced output lists, driven by an
explicit readiness choice list: `futures::stream::select` under some
schedule of which side is ready first.  When one side is exhausted the
other is drained. -/
def merge {α : Type} : List Bool → List α → List α → List α
  | _, [], ys => ys
  | _, x :: xs, [] => x :: xs
  | [], x :: xs, y :: ys => x :: xs ++ y :: ys
  | true :: cs, x :: xs, y :: ys => x :: merge cs xs (y :: ys)
  | false :: cs, x :: xs, y :: ys => y :: merge cs (x :: xs) ys

/-- Run the two branches built by `trystream_split_result` over a source
under a poll schedule: the success branch's output, the error branch's
output, and the remaining unconsumed source. -/
def runSplitResult (A E : Type) (sched : List Bool)
    (source : List (Result A E)) : List A × List E × List (Result A E) :=
  runSplit (trystream_split_result A E).1 (trystream_split_result A E).2 sched source

/-- `TryStreamExt::map_ok`: transform the success values of a fallible
stream, passing errors through untouched. -/
def map_ok {A B E : Type} (f : A → B) : List (Result A E) → List (Result B E) :=
  List.map fun r =>
    match r with
    | .Ok a => .Ok (f a)
    | .Err e => .Err e

/-- `TryStreamExt::try_flatten` on a fallible stream of fallible
streams: each outer error is passed through as an item, each successful
inner stream is drained in order. -/
def try_flatten {A E : Type}
    (s : List (Result (List (Result A E)) E)) : List (Result A E) :=
  s.flatMap fun r =>
    match r with
    | .Ok inner => inner
    | .Err e => [.Err e]

/-- Modelled from the spec: the external `watcher::Event`
change-notification type, absent from `src/`.  Section 6 and the
flattening bullets of section 8 describe three shapes: an applied event
carrying one current key, a removal (touched-only) event carrying one
key, and a restart-style event carrying a list of keys. -/
inductive Event (K : Type) where
  | Applied : K → Event K
  | Deleted : K → Event K
  | Restarted : List K → Event K
deriving DecidableEq, Repr

/-- Modelled from the spec: `watcher::Event::into_iter_applied`, the
applied-expansion.  Per section 8: an applied event for key `k` yields
exactly `[k]`, a removal yields `[]`, and a restart event carrying
`[k1, k2, k3]` yields them in that order. -/
def Event.into_iter_applied {K : Type} : Event K → List K
  | .Applied k => [k]
  | .Deleted _ => []
  | .Restarted ks => ks

/-- Modelled from the spec: `watcher::Event::into_iter_touched`, the
touched-expansion.  Per section 8: an applied event for key `k` yields
`[k]`, a removal of key `k` yields `[k]`, and a restart event carrying
`[k1, k2, k3]` yields them in that order. -/
def Event.into_iter_touched {K : Type} : Event K → List K
  | .Applied k => [k]
  | .Deleted k => [k]
  | .Restarted ks => ks

/-- `try_flatten_applied`: wrap each event's applied-expansion keys in
`Ok` and flatten, as in the source:
`stream.map_ok(|event| stream::iter(event.into_iter_applied().map(Ok))).try_flatten()`. -/
def try_flatten_applied {K E : Type} (stream : List (Result (Event K) E)) :
    List (Result K E) :=
  try_flatten (map_ok (fun event => event.into_iter_applied.map Result.Ok) stream)

/-- `try_flatten_touched`: wrap each event's touched-expansion keys in
`Ok` and flatten, as in the source:
`stream.map_ok(|event| stream::iter(event.into_iter_touched().map(Ok))).try_flatten()`. -/
def try_flatten_touched {K E : Type} (stream : List (Result (Event K) E)) :
    List (Result K E) :=
  try_flatten (map_ok (fun event => event.into_iter_touched.map Result.Ok) stream)

/-- `trystream_try_via`: split the input with `trystream_split_result`,
feed the success branch (its output under the poll schedule `sched`)
through `make_via_stream`, and `stream::select` the resulting fallible
stream with the error branch's output wrapped in `Err`; the select's
readiness nondeterminism is the choice list `cs`. -/
def trystream_try_via {A B E : Type}
    (make_via_stream : List A → List (Result B E))
    (sched cs : List Bool) (input_stream : List (Result A E)) :
    List (Result B E) :=
  merge cs (make_via_stream (runSplitResult A E sched input_stream).1)
    ((runSplitResult A E sched input_stream).2.1.map Result.Err)

/-- A sample `make_via_stream` transformation for concrete runs: doubles
every success value. -/
def doubleVia (l : List Nat) : List (Result Nat Nat) :=
  l.map fun n => .Ok (2 * n)

/-- A sample branch over `Nat` items: claims even numbers and extracts
their halves. -/
def evenCase : SplitCase Nat Nat :=
  { should_consume_item := fun n => decide (n % 2 = 0)
    try_extract_item_case := fun n => if n % 2 = 0 then some (n / 2) else none }

/-- A deliberately mismatched branch: its predicate claims every item but
its extractor always yields `none`, violating the documented
precondition of `try_extract_item_case`. -/
def mismatchedCase : SplitCase Nat Nat :=
  { should_consume_item := fun _ => true
    try_extract_item_case := fun _ => none }

/-- A branch that claims no item at all. -/
def idleCase : SplitCase Nat Nat :=
  { should_consume_item := fun _ => false
    try_extract_item_case := fun n => some n }

theorem poll_next_nil {Item Case : Type} (c : SplitCase Item Case) :
    c.poll_next [] = (.ok (.Ready none), []) := rfl

theorem poll_next_nil_iterated {Item Case : Type} (c : SplitCase Item Case)
    (n : Nat) : (fun s => (c.poll_next s).2)^[n] [] = [] := by
  induction n with
  | zero => rfl
  | succ n ih => rw [Function.iterate_succ_apply, poll_next_nil]; exact ih

/-- C2: when the head item is available, the branch's predicate accepts
it and the extractor narrows it to `v`, one call to `poll_next` consumes
exactly that item (the cursor advances from `x :: rest` to `rest`) and
returns `Ready (some v)` — an ordinary, non-terminal, non-fatal outcome,
so the branch remains pollable on `rest`. -/
theorem poll_next_consumes_claimed_item {Item Case : Type}
    (c : SplitCase Item Case) (x : Item) (rest : List Item) (v : Case)
    (hp : c.should_consume_item x = true)
    (he : c.try_extract_item_case x = some v) :
    c.poll_next (x :: rest) = (.ok (.Ready (some v)), rest) := by
  simp [SplitCase.poll_next, hp, he]

theorem poll_next_consumes_claimed_item_witness :
    evenCase.should_consume_item 4 = true
    ∧ evenCase.try_extract_item_case 4 = some 2
    ∧ evenCase.poll_next (4 :: [1, 3]) = (.ok (.Ready (some 2)), [1, 3]) :=
  ⟨by decide, by decide,
   poll_next_consumes_claimed_item evenCase 4 [1, 3] 2 (by decide) (by decide)⟩

/-- C3: when the head item is available but the branch's predicate
rejects it, `poll_next` returns `Pending` and consumes nothing: the
cursor (peeked head and remaining source alike) is returned exactly as
it was, so the same item is still at the head for every other branch. -/
theorem poll_next_declines_unclaimed_item {Item Case : Type}
    (c : SplitCase Item Case) (x : Item) (rest : List Item)
    (hp : c.should_consume_item x = false) :
    c.poll_next (x :: rest) = (.ok .Pending, x :: rest) := by
  simp [SplitCase.poll_next, hp]

theorem poll_next_declines_unclaimed_item_witness :
    evenCase.should_consume_item 3 = false
    ∧ evenCase.poll_next (3 :: [4, 5]) = (.ok .Pending, 3 :: [4, 5]) :=
  ⟨by decide, poll_next_declines_unclaimed_item evenCase 3 [4, 5] (by decide)⟩

/-- C5: a predicate/extractor mismatch (predicate accepts the head, the
extractor yields `none`) makes `poll_next` hit the fatal
invariant-violation path — the `expect` panic, modelled as the `fatal`
outcome, disjoint by construction from every ordinary `ok` poll value —
after the item has already been consumed; it is never surfaced as a
recoverable value and the item is not silently skipped. -/
theorem poll_next_mismatch_fatal {Item Case : Type}
    (c : SplitCase Item Case) (x : Item) (rest : List Item)
    (hp : c.should_consume_item x = true)
    (he : c.try_extract_item_case x = none) :
    c.poll_next (x :: rest) =
      (.fatal "`try_extract_item_case` returned `None` despite `should_consume_item` returning `true`",
       rest)
    ∧ (c.poll_next (x :: rest)).1.isFatal = true := by
  refine ⟨?_, ?_⟩ <;> simp [SplitCase.poll_next, hp, he, PollOutcome.isFatal]

theorem poll_next_mismatch_fatal_witness :
    mismatchedCase.should_consume_item 7 = true
    ∧ mismatchedCase.try_extract_item_case 7 = none
    ∧ (mismatchedCase.poll_next (7 :: [8]) =
        (.fatal "`try_extract_item_case` returned `None` despite `should_consume_item` returning `true`",
         [8])
       ∧ (mismatchedCase.poll_next (7 :: [8])).1.isFatal = true) :=
  ⟨by decide, by decide,
   poll_next_mismatch_fatal mismatchedCase 7 [8] (by decide) (by decide)⟩

/-- C8: with the shared source exhausted, `poll_next` reports
end-of-stream (`Ready none`) and leaves the cursor empty, so the state
is terminal: after any number `n` of further polls the branch still
reports `Ready none` and never yields another item. -/
theorem poll_next_exhausted_terminal {Item Case : Type}
    (c : SplitCase Item Case) (n : Nat) :
    c.poll_next ((fun s => (c.poll_next s).2)^[n] []) = (.ok (.Ready none), []) := by
  rw [poll_next_nil_iterated]; exact poll_next_nil c

/-- C4: the two branches built by `trystream_split_result` have
exhaustive and consistent predicate/extractor pairs: on every item
exactly one of the two predicates holds (they are complementary
booleans), each extractor returns `some` precisely when its predicate
accepts, and consequently polling either branch on any source never
reaches the fatal mismatch path. -/
theorem trystream_split_result_exhaustive (A E : Type) (r : Result A E)
    (source : List (Result A E)) :
    (trystream_split_result A E).1.should_consume_item r
      = !(trystream_split_result A E).2.should_consume_item r
    ∧ ((trystream_split_result A E).1.try_extract_item_case r).isSome
      = (trystream_split_result A E).1.should_consume_item r
    ∧ ((trystream_split_result A E).2.try_extract_item_case r).isSome
      = (trystream_split_result A E).2.should_consume_item r
    ∧ ((trystream_split_result A E).1.poll_next source).1.isFatal = false
    ∧ ((trystream_split_result A E).2.poll_next source).1.isFatal = false := by
  refine ⟨?_, ?_, ?_, ?_, ?_⟩
  · cases r <;> rfl
  · cases r <;> rfl
  · cases r <;> rfl
  · cases source with
    | nil => rfl
    | cons x xs => cases x <;> rfl
  · cases source with
    | nil => rfl
    | cons x xs => cases x <;> rfl

/-- C6: `poll_next` with the `PinCell` guard made explicit: entered with
the guard free, the call acquires it exactly once, holds it for the body
and has released it at return on every path (consume, decline,
exhausted), while agreeing with the plain `poll_next` on outcome and
cursor; entered with the guard already held, the acquisition itself is
fatal (the `borrow_mut` panic), acquiring nothing — never a recoverable
error. -/
theorem poll_next_guard_discipline {Item Case : Type}
    (c : SplitCase Item Case) (source : List Item) :
    (c.poll_next_traced false source).2.1 = 1
    ∧ (c.poll_next_traced false source).2.2.1 = false
    ∧ (c.poll_next_traced false source).1 = (c.poll_next source).1
    ∧ (c.poll_next_traced false source).2.2.2 = (c.poll_next source).2
    ∧ (c.poll_next_traced true source).1.isFatal = true
    ∧ (c.poll_next_traced true source).2.1 = 0 := by
  refine ⟨?_, ?_, ?_, ?_, rfl, rfl⟩ <;>
    · cases source with
      | nil => rfl
      | cons x xs =>
        simp only [SplitCase.poll_next_traced, SplitCase.poll_next, if_neg Bool.false_ne_true]
        cases hp : c.should_consume_item x
        · simp [hp]
        · cases he : c.try_extract_item_case x <;> simp [hp, he]

/-- C7: if the head item satisfies no live branch's predicate, the whole
group stalls on it: under every poll schedule, running the group
consumes nothing (the head item stays at the head, the source
unchanged — the item is not lost) and no branch produces any output. -/
theorem unclaimed_head_stalls_group {Item Case : Type}
    (branches : List (SplitCase Item Case)) (x : Item) (xs : List Item)
    (sched : List Nat)
    (h : ∀ c ∈ branches, c.should_consume_item x = false) :
    runGroup branches sched (x :: xs) = ([], x :: xs) := by
  induction sched with
  | nil => rfl
  | cons i rest ih =>
    have hstep : runGroup branches (i :: rest) (x :: xs)
        = runGroup branches rest (x :: xs) := by
      rw [runGroup]
      cases hb : branches[i]? with
      | none => rfl
      | some c =>
        have hc : c.should_consume_item x = false := h c (List.getElem?_mem hb)
        simp [stepCase, SplitCase.poll_next, hc]
    rw [hstep]
    exact ih

theorem unclaimed_head_stalls_group_witness :
    (∀ c ∈ [evenCase, idleCase], c.should_consume_item 3 = false)
    ∧ runGroup [evenCase, idleCase] [0, 1, 0, 7] (3 :: [4, 6]) = ([], 3 :: [4, 6]) :=
  ⟨by decide,
   unclaimed_head_stalls_group [evenCase, idleCase] 3 [4, 6] [0, 1, 0, 7] (by decide)⟩

/-- C10: `try_flatten_applied` is the event-order concatenation of each
successful event's applied-expansion keys, each wrapped in `Ok`, with
every input error passed through as an `Err` item; `try_flatten_touched`
likewise with the touched-expansion.  Within an event the keys keep the
order the expansion produces. -/
theorem try_flatten_concat_spec {K E : Type} (s : List (Result (Event K) E)) :
    try_flatten_applied s
      = s.flatMap (fun r =>
          match r with
          | .Ok event => event.into_iter_applied.map Result.Ok
          | .Err e => [Result.Err e])
    ∧ try_flatten_touched s
      = s.flatMap (fun r =>
          match r with
          | .Ok event => event.into_iter_touched.map Result.Ok
          | .Err e => [Result.Err e]) := by
  constructor <;>
  · induction s with
    | nil => rfl
    | cons r t ih =>
      cases r <;>
        simp [try_flatten_applied, try_flatten_touched, try_flatten, map_ok] at ih ⊢ <;>
        simp [ih]

theorem stepCase_ok_nil (A E : Type) :
    stepCase (trystream_split_result A E).1 ([] : List (Result A E)) = (none, []) := rfl

theorem stepCase_ok_cons_Ok (A E : Type) (a : A) (xs : List (Result A E)) :
    stepCase (trystream_split_result A E).1 (.Ok a :: xs) = (some a, xs) := rfl

theorem stepCase_ok_cons_Err (A E : Type) (e : E) (xs : List (Result A E)) :
    stepCase (trystream_split_result A E).1 (.Err e :: xs) = (none, .Err e :: xs) := rfl

theorem stepCase_err_nil (A E : Type) :
    stepCase (trystream_split_result A E).2 ([] : List (Result A E)) = (none, []) := rfl

theorem stepCase_err_cons_Ok (A E : Type) (a : A) (xs : List (Result A E)) :
    stepCase (trystream_split_result A E).2 (.Ok a :: xs) = (none, .Ok a :: xs) := rfl

theorem stepCase_err_cons_Err (A E : Type) (e : E) (xs : List (Result A E)) :
    stepCase (trystream_split_result A E).2 (.Err e :: xs) = (some e, xs) := rfl

theorem runSplitResult_true_nil (A E : Type) (rest : List Bool) :
    runSplitResult A E (true :: rest) [] = runSplitResult A E rest [] := rfl

theorem runSplitResult_false_nil (A E : Type) (rest : List Bool) :
    runSplitResult A E (false :: rest) [] = runSplitResult A E rest [] := rfl

theorem runSplitResult_true_Ok (A E : Type) (rest : List Bool) (a : A)
    (xs : List (Result A E)) :
    runSplitResult A E (true :: rest) (.Ok a :: xs)
      = (a :: (runSplitResult A E rest xs).1, (runSplitResult A E rest xs).2) := rfl

theorem runSplitResult_true_Err (A E : Type) (rest : List Bool) (e : E)
    (xs : List (Result A E)) :
    runSplitResult A E (true :: rest) (.Err e :: xs)
      = runSplitResult A E rest (.Err e :: xs) := rfl

theorem runSplitResult_false_Ok (A E : Type) (rest : List Bool) (a : A)
    (xs : List (Result A E)) :
    runSplitResult A E (false :: rest) (.Ok a :: xs)
      = runSplitResult A E rest (.Ok a :: xs) := rfl

theorem runSplitResult_false_Err (A E : Type) (rest : List Bool) (e : E)
    (xs : List (Result A E)) :
    runSplitResult A E (false :: rest) (.Err e :: xs)
      = ((runSplitResult A E rest xs).1,
         e :: (runSplitResult A E rest xs).2.1,
         (runSplitResult A E rest xs).2.2) := rfl

theorem runSplitResult_invariant (A E : Type) (sched : List Bool)
    (source : List (Result A E)) :
    ∃ pre : List (Result A E),
      source = pre ++ (runSplitResult A E sched source).2.2
      ∧ (runSplitResult A E sched source).1 = pre.filterMap Result.ok
      ∧ (runSplitResult A E sched source).2.1 = pre.filterMap Result.err := by
  induction sched generalizing source with
  | nil => exact ⟨[], rfl, rfl, rfl⟩
  | cons b rest ih =>
    cases b
    · cases source with
      | nil => rw [runSplitResult_false_nil]; exact ih []
      | cons x xs =>
        cases x with
        | Ok a => rw [runSplitResult_false_Ok]; exact ih (.Ok a :: xs)
        | Err e =>
          rw [runSplitResult_false_Err]
          obtain ⟨pre, h1, h2, h3⟩ := ih xs
          refine ⟨.Err e :: pre, ?_, ?_, ?_⟩
          · rw [List.cons_append]; exact congrArg (List.cons (.Err e)) h1
          · simpa [List.filterMap_cons, Result.ok] using h2
          · simpa [List.filterMap_cons, Result.err] using h3
    · cases source with
      | nil => rw [runSplitResult_true_nil]; exact ih []
      | cons x xs =>
        cases x with
        | Err e => rw [runSplitResult_true_Err]; exact ih (.Err e :: xs)
        | Ok a =>
          rw [runSplitResult_true_Ok]
          obtain ⟨pre, h1, h2, h3⟩ := ih xs
          refine ⟨.Ok a :: pre, ?_, ?_, ?_⟩
          · rw [List.cons_append]; exact congrArg (List.cons (.Ok a)) h1
          · simpa [List.filterMap_cons, Result.ok] using h2
          · simpa [List.filterMap_cons, Result.err] using h3

theorem merge_perm {α : Type} (cs : List Bool) (xs ys : List α) :
    (merge cs xs ys : Multiset α) = (xs : Multiset α) + (ys : Multiset α) := by
  induction cs generalizing xs ys with
  | nil =>
    cases xs with
    | nil => simp [merge]
    | cons x t =>
      cases ys with
      | nil => simp [merge]
      | cons y u => simp [merge]
  | cons b cs ih =>
    cases xs with
    | nil => simp [merge]
    | cons x t =>
      cases ys with
      | nil => simp [merge]
      | cons y u =>
        cases b
        · show ((y :: merge cs (x :: t) u : List α) : Multiset α) = _
          rw [← Multiset.cons_coe, ih, ← Multiset.add_cons, Multiset.cons_coe]
        · show ((x :: merge cs t (y :: u) : List α) : Multiset α) = _
          rw [← Multiset.cons_coe, ih, ← Multiset.cons_add, Multiset.cons_coe]

theorem merge_sublist_left {α : Type} (cs : List Bool) (xs ys : List α) :
    List.Sublist xs (merge cs xs ys) := by
  induction cs generalizing xs ys with
  | nil =>
    cases xs with
    | nil => exact List.nil_sublist _
    | cons x t =>
      cases ys with
      | nil => exact List.Sublist.refl _
      | cons y u =>
        show List.Sublist (x :: t) (x :: t ++ y :: u)
        exact List.sublist_append_left _ _
  | cons b cs ih =>
    cases xs with
    | nil => exact List.nil_sublist _
    | cons x t =>
      cases ys with
      | nil => simp only [merge]; exact List.Sublist.refl _
      | cons y u =>
        cases b
        · exact (ih (x :: t) u).cons y
        · exact (ih t (y :: u)).cons₂ x

theorem merge_sublist_right {α : Type} (cs : List Bool) (xs ys : List α) :
    List.Sublist ys (merge cs xs ys) := by
  induction cs generalizing xs ys with
  | nil =>
    cases xs with
    | nil => exact List.Sublist.refl _
    | cons x t =>
      cases ys with
      | nil => exact List.nil_sublist _
      | cons y u =>
        show List.Sublist (y :: u) (x :: t ++ y :: u)
        exact List.sublist_append_right _ _
  | cons b cs ih =>
    cases xs with
    | nil => simp only [merge]; exact List.Sublist.refl _
    | cons x t =>
      cases ys with
      | nil => exact List.nil_sublist _
      | cons y u =>
        cases b
        · exact (ih (x :: t) u).cons₂ y
        · exact (ih t (y :: u)).cons x

theorem filterMap_ok_err_perm (A E : Type) (s : List (Result A E)) :
    (((s.filterMap Result.ok).map Result.Ok : List (Result A E)) : Multiset (Result A E))
      + (((s.filterMap Result.err).map Result.Err : List (Result A E)) : Multiset (Result A E))
      = (s : Multiset (Result A E)) := by
  induction s with
  | nil => rfl
  | cons x t ih =>
    cases x with
    | Ok a =>
      simp only [List.filterMap_cons, Result.ok, Result.err, List.map_cons]
      rw [← Multiset.cons_coe, ← Multiset.cons_coe, Multiset.cons_add, ih]
    | Err e =>
      simp only [List.filterMap_cons, Result.ok, Result.err, List.map_cons]
      rw [← Multiset.cons_coe, ← Multiset.cons_coe, Multiset.add_cons, ih]

/-- C1: splitting a finite `Result`-valued source with
`trystream_split_result` and running the two branches under any poll
schedule that drains the source yields, on the success branch, exactly
the source's `Ok` payloads in source order and, on the error branch,
exactly its `Err` payloads in source order (each branch preserves the
relative order of the items its predicate claims); recombining the two
branch outputs in any interleaving reproduces exactly the multiset of
the source's items. -/
theorem split_result_fair_merge_reconstructs (A E : Type) (sched cs : List Bool)
    (source : List (Result A E))
    (hdrain : (runSplitResult A E sched source).2.2 = []) :
    (runSplitResult A E sched source).1 = source.filterMap Result.ok
    ∧ (runSplitResult A E sched source).2.1 = source.filterMap Result.err
    ∧ ((merge cs ((runSplitResult A E sched source).1.map Result.Ok)
          ((runSplitResult A E sched source).2.1.map Result.Err) : List (Result A E))
         : Multiset (Result A E))
      = (source : Multiset (Result A E)) := by
  obtain ⟨pre, h1, h2, h3⟩ := runSplitResult_invariant A E sched source
  rw [hdrain, List.append_nil] at h1
  subst h1
  refine ⟨h2, h3, ?_⟩
  rw [h2, h3, merge_perm, filterMap_ok_err_perm]

theorem split_result_fair_merge_reconstructs_witness :
    (runSplitResult Nat Nat [true, false, true] [.Ok 1, .Err 2, .Ok 3]).2.2 = []
    ∧ ((runSplitResult Nat Nat [true, false, true] [.Ok 1, .Err 2, .Ok 3]).1
        = ([.Ok 1, .Err 2, .Ok 3] : List (Result Nat Nat)).filterMap Result.ok
      ∧ (runSplitResult Nat Nat [true, false, true] [.Ok 1, .Err 2, .Ok 3]).2.1
        = ([.Ok 1, .Err 2, .Ok 3] : List (Result Nat Nat)).filterMap Result.err
      ∧ ((merge [false, true]
            ((runSplitResult Nat Nat [true, false, true] [.Ok 1, .Err 2, .Ok 3]).1.map Result.Ok)
            ((runSplitResult Nat Nat [true, false, true] [.Ok 1, .Err 2, .Ok 3]).2.1.map Result.Err)
           : List (Result Nat Nat)) : Multiset (Result Nat Nat))
        = (([.Ok 1, .Err 2, .Ok 3] : List (Result Nat Nat)) : Multiset (Result Nat Nat))) :=
  ⟨by decide,
   split_result_fair_merge_reconstructs Nat Nat [true, false, true] [false, true]
     [.Ok 1, .Err 2, .Ok 3] (by decide)⟩

/-- C9: for any input drained by the schedule, the output of
`trystream_try_via` is, as a multiset, exactly the items produced by
`make_via_stream` applied to the success-branch output (which is the
source's `Ok` payloads in order) together with each input error, exactly
once, unchanged, wrapped in `Err`; and each of the two classes embeds
into the output as a sublist, so relative order is preserved within the
error class and within the transformed-success class, with no ordering
guarantee across them. -/
theorem trystream_try_via_routes_errors (A B E : Type)
    (make_via_stream : List A → List (Result B E)) (sched cs : List Bool)
    (source : List (Result A E))
    (hdrain : (runSplitResult A E sched source).2.2 = []) :
    ((trystream_try_via make_via_stream sched cs source : List (Result B E))
       : Multiset (Result B E))
      = ((make_via_stream (source.filterMap Result.ok) : List (Result B E))
           : Multiset (Result B E))
        + (((source.filterMap Result.err).map Result.Err : List (Result B E))
             : Multiset (Result B E))
    ∧ List.Sublist (make_via_stream (source.filterMap Result.ok))
        (trystream_try_via make_via_stream sched cs source)
    ∧ List.Sublist ((source.filterMap Result.err).map Result.Err)
        (trystream_try_via make_via_stream sched cs source) := by
  obtain ⟨pre, h1, h2, h3⟩ := runSplitResult_invariant A E sched source
  rw [hdrain, List.append_nil] at h1
  subst h1
  simp only [trystream_try_via]
  rw [h2, h3]
  exact ⟨merge_perm cs _ _, merge_sublist_left cs _ _, merge_sublist_right cs _ _⟩

theorem trystream_try_via_routes_errors_witness :
    (runSplitResult Nat Nat [true, false, true] [.Ok 1, .Err 5, .Ok 2]).2.2 = []
    ∧ (((trystream_try_via doubleVia [true, false, true] [true] [.Ok 1, .Err 5, .Ok 2]
          : List (Result Nat Nat)) : Multiset (Result Nat Nat))
        = ((doubleVia (([.Ok 1, .Err 5, .Ok 2] : List (Result Nat Nat)).filterMap Result.ok)
             : List (Result Nat Nat)) : Multiset (Result Nat Nat))
          + (((([.Ok 1, .Err 5, .Ok 2] : List (Result Nat Nat)).filterMap Result.err).map Result.Err
               : List (Result Nat Nat)) : Multiset (Result Nat Nat))
      ∧ List.Sublist (doubleVia (([.Ok 1, .Err 5, .Ok 2] : List (Result Nat Nat)).filterMap Result.ok))
          (trystream_try_via doubleVia [true, false, true] [true] [.Ok 1, .Err 5, .Ok 2])
      ∧ List.Sublist ((([.Ok 1, .Err 5, .Ok 2] : List (Result Nat Nat)).filterMap Result.err).map Result.Err)
          (trystream_try_via doubleVia [true, false, true] [true] [.Ok 1, .Err 5, .Ok 2])) :=
  ⟨by decide,
   trystream_try_via_routes_errors Nat Nat Nat doubleVia [true, false, true] [true]
     [.Ok 1, .Err 5, .Ok 2] (by decide)⟩

end KubeRuntime
